import Mathlib

/-!
Shallow embedding of the fire-hpp command-line matching engine
(src/fire.hpp).  Strings from the C++ side are modelled as lists of
characters (`Str`), machine integers as `Int` with explicit bounds, and
`exit(...)` paths either as `Except Fatal` results (for the
programmer-side `_instant_assert` calls) or as explicit outcome values.
Every definition mirrors the corresponding C++ function; line references
are given in the doc comments.
-/

namespace Fire

/-- C++ `std::string`, modelled as a list of characters. -/
abbrev Str := List Char

/-- `count_hyphens` (fire.hpp:275-280): number of leading `-` characters. -/
def count_hyphens : Str → Nat
  | [] => 0
  | c :: rest => if c = '-' then count_hyphens rest + 1 else 0

/-- `identifier` (fire.hpp:72-98).  The `_help`/`_longer` presentation
strings play no role in matching, ordering or overlap and are omitted;
the four semantic fields are kept. -/
structure Identifier where
  short_name : Option Str
  long_name : Option Str
  pos : Option Int
  vector : Bool
deriving DecidableEq

/-- The `identifier()` default constructor (fire.hpp:83): the vector
sentinel carrying no short name, long name or positional index. -/
def sentinel_id : Identifier := ⟨none, none, none, true⟩

/-- An `identifier(int pos)` (fire.hpp:85): positional index only. -/
def pos_id (p : Int) : Identifier := ⟨none, none, some p, false⟩

/-- An `identifier(const char *name)` with a long (length ≥ 2) name
(fire.hpp:298-307): long-name only. -/
def long_id (n : Str) : Identifier := ⟨none, some n, none, false⟩

/-- Primary sort key of `identifier::operator<` (fire.hpp:326):
`_long_name.value_or(_short_name.value_or(""))`. -/
def keyName (id : Identifier) : Str := id.long_name.getD (id.short_name.getD [])

/-- The `tolower` case folding applied to both keys (fire.hpp:329-330). -/
def foldCase (s : Str) : Str := s.map Char.toLower

/-- Lexicographic `std::string` comparison used by `operator<`
(fire.hpp:333), on character values. -/
def strLt : Str → Str → Bool
  | [], [] => false
  | [], _ :: _ => true
  | _ :: _, [] => false
  | a :: as, b :: bs => if a < b then true else if b < a then false else strLt as bs

/-- `identifier::operator<` (fire.hpp:325-335): case-folded primary name
comparison, then positional index with `value_or(1000000)` as the
absent-index sentinel. -/
def identLt (a b : Identifier) : Bool :=
  if foldCase (keyName a) ≠ foldCase (keyName b) then
    strLt (foldCase (keyName a)) (foldCase (keyName b))
  else decide (a.pos.getD 1000000 < b.pos.getD 1000000)

/-- `identifier::overlaps` (fire.hpp:337-348): shared long name, shared
short name, or shared positional index. -/
def Identifier.overlaps (a b : Identifier) : Bool :=
  (match a.long_name, b.long_name with
   | some x, some y => decide (x = y)
   | _, _ => false) ||
  (match a.short_name, b.short_name with
   | some x, some y => decide (x = y)
   | _, _ => false) ||
  (match a.pos, b.pos with
   | some x, some y => decide (x = y)
   | _, _ => false)

/-- `identifier::contains(const std::string&)` (fire.hpp:350-354). -/
def Identifier.containsName (id : Identifier) (name : Str) : Bool :=
  (match id.short_name with
   | some s => decide (name = s)
   | none => false) ||
  (match id.long_name with
   | some l => decide (name = l)
   | none => false)

/-- `identifier::contains(int)` (fire.hpp:356-359). -/
def Identifier.containsPos (id : Identifier) (p : Int) : Bool :=
  match id.pos with
  | some q => decide (p = q)
  | none => false

/-- `identifier::prepend_hyphens` (fire.hpp:283-289). -/
def prepend_hyphens (name : Str) : Str :=
  if name.length = 1 then '-' :: name
  else if 2 ≤ name.length then '-' :: '-' :: name
  else name

/-- `_first<identifier, std::string>` (fire.hpp:100-110): the deferred
error slot.  `slot = none` models `_empty`. -/
structure First where
  slot : Option (Identifier × String)
deriving DecidableEq

/-- `_first::set` (fire.hpp:362-369): keep the incoming pair only when
the slot is empty or the incoming order is strictly smaller. -/
def First.set (f : First) (o : Identifier) (v : String) : First :=
  match f.slot with
  | none => ⟨some (o, v)⟩
  | some (po, _) => if identLt o po then ⟨some (o, v)⟩ else f

/-- A call to `exit(...)` raised from `_instant_assert`
(fire.hpp:262-273); `programmer_side` mirrors the flag of the same name. -/
structure Fatal where
  programmer_side : Bool
  msg : String
deriving DecidableEq

/-- The `_matcher` state (fire.hpp:112-144). -/
structure Matcher where
  positional : List Str
  named : List (Str × Option Str)
  queried : List Identifier
  deferred : First
  main_argc : Int
  space_assignment : Bool
  strict : Bool
  help_flag : Bool
deriving DecidableEq

/-- `arg_type` (fire.hpp:124). -/
inductive ArgType
  | string_t
  | bool_t
  | none_t
deriving DecidableEq

/-- The named-table search loop of `get_and_mark_as_queried`
(fire.hpp:447-454): first entry whose name the identifier contains. -/
def findNamed (id : Identifier) : List (Str × Option Str) → Option (Option Str)
  | [] => none
  | e :: rest => if id.containsName e.1 then some e.2 else findNamed id rest

/-- Message of the `_instant_assert` at fire.hpp:439. -/
def spaceAssignMsg : String :=
  "positional argument used with space assignement enabled: (disable space assignement by calling FIRE_NO_SPACE_ASSIGNMENT(...) instead of FIRE(...))"

/-- Message stem of the `_instant_assert` at fire.hpp:442 (the source
appends `id.longer()`, a presentation string not modelled here). -/
def doubleQueryMsg : String := "double query for argument"

/-- The `if (_strict) _queried.push_back(id)` step of
`get_and_mark_as_queried` (fire.hpp:444-445). -/
def Matcher.markQueried (m : Matcher) (id : Identifier) : Matcher :=
  if m.strict then { m with queried := m.queried ++ [id] } else m

/-- `_matcher::get_and_mark_as_queried` (fire.hpp:437-465).  The two
`_instant_assert` calls become `Except.error` (programmer-side fatal);
the negative-index case follows the C++ `size_t` conversion, under which
a negative index is never `< _positional.size()`. -/
def Matcher.get_and_mark_as_queried (m : Matcher) (id : Identifier) :
    Except Fatal ((Str × ArgType) × Matcher) :=
  if m.space_assignment ∧ id.pos.isSome then
    .error ⟨true, spaceAssignMsg⟩
  else if m.queried.any (fun q => q.overlaps id) then
    .error ⟨true, doubleQueryMsg⟩
  else
    match findNamed id (m.markQueried id).named with
    | some (some v) => .ok ((v, .string_t), m.markQueried id)
    | some none => .ok (([], .bool_t), m.markQueried id)
    | none =>
      match id.pos with
      | some p =>
        if h : 0 ≤ p ∧ p.toNat < (m.markQueried id).positional.length then
          .ok (((m.markQueried id).positional.get ⟨p.toNat, h.2⟩, .string_t), m.markQueried id)
        else
          .ok (([], .none_t), m.markQueried id)
      | none => .ok (([], .none_t), m.markQueried id)

/-- A Lean `String` from a modelled C++ string, used when building the
error-message strings of `deferred_assert` calls. -/
def mkS (s : Str) : String := String.mk s

/-- The `isdigit(s[1])` test of `separate_named_positional`
(fire.hpp:500); only reached when the token has at least two
characters. -/
def isDigitAt1 (s : Str) : Bool :=
  match s with
  | _ :: c :: _ => c.isDigit
  | _ => false

/-- The `isdigit(name[0])` test of `assign_named_values` (fire.hpp:554);
`std::string::operator[]` yields the null character on an empty string,
which is not a digit. -/
def isDigitAt0 (s : Str) : Bool :=
  match s with
  | c :: _ => c.isDigit
  | _ => false

/-- `_matcher::separate_named_positional` (fire.hpp:491-515).  The first
`Bool` argument is `_space_assignment`, the second the running
`to_named` flag.  Returns (named tokens, positional tokens, failed
deferred-assert messages in occurrence order). -/
def separate_named_positional (sa : Bool) :
    Bool → List Str → (List Str × List Str × List String)
  | _, [] => ([], [], [])
  | to_named, s :: rest =>
    let h := count_hyphens s
    let hyphErr : List String :=
      if h ≤ 2 then [] else ["too many hyphens: " ++ mkS s]
    if h = 2 ∨ (h = 1 ∧ 1 ≤ s.length - h ∧ isDigitAt1 s = false) then
      let tn := (decide (2 ≤ h) || decide (s.length - h = 1)) && !(decide ('=' ∈ s))
      let r := separate_named_positional sa tn rest
      (s :: r.1, r.2.1, hyphErr ++ r.2.2)
    else if sa && to_named then
      let r := separate_named_positional sa false rest
      (s :: r.1, r.2.1, hyphErr ++ r.2.2)
    else
      let r := separate_named_positional sa to_named rest
      (r.1, s :: r.2.1, hyphErr ++ r.2.2)

/-- Position of the first `=` in a token (`std::string::find('=')`,
fire.hpp:521). -/
def findEq : Str → Option Nat
  | [] => none
  | c :: rest => if c = '=' then some 0 else (findEq rest).map (· + 1)

/-- `_matcher::split_equations` (fire.hpp:517-535).  Each output pair is
(token part, "certainly a value" tag). -/
def split_equations : List Str → (List (Str × Bool) × List String)
  | [] => ([], [])
  | s :: rest =>
    match findEq s with
    | none =>
      let r := split_equations rest
      ((s, false) :: r.1, r.2)
    | some eq =>
      let h := count_hyphens s
      if (eq : Int) - (h : Int) = 1 ∨ 2 ≤ h then
        let r := split_equations rest
        ((s.take eq, false) :: (s.drop (eq + 1), true) :: r.1, r.2)
      else
        let r := split_equations rest
        (r.1, ("expanding single-hyphen arguments can't have value (" ++ mkS s ++ ")") :: r.2)

/-- `args.back().second = v` (fire.hpp:548,555,560): overwrite the value
of the last named entry.  On an empty vector `back()` is undefined in
C++; that situation is unreachable from `parse`, and is modelled as a
no-op. -/
def setLast : List (Str × Option Str) → Str → List (Str × Option Str)
  | [], _ => []
  | [a], v => [(a.1, some v)]
  | a :: b :: rest, v => a :: setLast (b :: rest) v

/-- One iteration of the `assign_named_values` loop (fire.hpp:541-561). -/
def assignStep (acc : List (Str × Option Str) × List String) (p : Str × Bool) :
    List (Str × Option Str) × List String :=
  let h := count_hyphens p.1
  let name := p.1.drop h
  if p.2 then (setLast acc.1 p.1, acc.2)
  else if h = 2 then
    (acc.1 ++ [(name, none)],
     acc.2 ++ (if 2 ≤ name.length then [] else
       ["single character parameter " ++ mkS p.1 ++ " must have exactly one hyphen"]))
  else if h = 1 then
    if isDigitAt0 name then (setLast acc.1 p.1, acc.2)
    else (acc.1 ++ name.map (fun c => ([c], (none : Option Str))), acc.2)
  else if h = 0 then (setLast acc.1 name, acc.2)
  else acc

/-- `_matcher::assign_named_values` (fire.hpp:537-563). -/
def assign_named_values (l : List (Str × Bool)) : List (Str × Option Str) × List String :=
  l.foldl assignStep ([], [])

/-- The duplicate-occurrence scan of `parse` (fire.hpp:475-478): one
deferred error per (earlier, later) pair of equal names. -/
def dupErrsAux (seen : List Str) : List (Str × Option Str) → List String
  | [] => []
  | e :: rest =>
    (seen.filter (fun n => decide (n = e.1))).map
      (fun _ => "multiple occurrences of argument " ++ mkS (prepend_hyphens e.1)) ++
    dupErrsAux (seen ++ [e.1]) rest

/-- Message of the deferred assert at fire.hpp:481. -/
def posNotAcceptedMsg : String := "positional arguments given, but not accepted"

/-- `_matcher::parse` (fire.hpp:467-482) without the executable-name
bookkeeping: the full classification pipeline from raw tokens to
(named table, positional sequence, failed deferred-assert messages in
occurrence order).  The final component mirrors the
`if(_space_assignment) deferred_assert(_positional.empty(), ...)` check
at fire.hpp:480-481. -/
def parseAll (sa : Bool) (raw : List Str) :
    List (Str × Option Str) × List Str × List String :=
  let s := separate_named_positional sa false raw
  let sp := split_equations s.1
  let tbl := assign_named_values sp.1
  let e5 : List String := if sa ∧ s.2.1 ≠ [] then [posNotAcceptedMsg] else []
  (tbl.1, s.2.1, s.2.2 ++ sp.2 ++ tbl.2 ++ dupErrsAux [] tbl.1 ++ e5)

/-! ### Value coercion (fire.hpp:629-703) -/

/-- `LLONG_MAX`. -/
def LLONG_MAX : Int := 9223372036854775807

/-- `LLONG_MIN`. -/
def LLONG_MIN : Int := -9223372036854775808

/-- Result of `std::stoll`: a parsed value together with the index one
past the last consumed character, or one of the two exceptions. -/
inductive StollRes
  | ok (v : Int) (last : Nat)
  | range
  | invalid
deriving DecidableEq

/-- The whitespace class skipped by `strtoll` (C `isspace`). -/
def isSpaceChar (c : Char) : Bool :=
  c = ' ' || c = '\t' || c = '\n' || c = '\x0b' || c = '\x0c' || c = '\r'

/-- Maximal leading digit run. -/
def takeDigits : Str → List Char
  | [] => []
  | c :: rest => if c.isDigit then c :: takeDigits rest else []

/-- Numeric value of a digit run. -/
def digitsToNat (l : List Char) : Nat :=
  l.foldl (fun a c => a * 10 + (c.toNat - 48)) 0

/-- `std::stoll(s, &last)` with the default base 10 (fire.hpp:639):
skip whitespace, optional sign, maximal digit run; no digits is
`invalid_argument`, a value outside `long long` is `out_of_range`. -/
def stoll (s : Str) : StollRes :=
  let ws := s.takeWhile isSpaceChar
  let s1 := s.drop ws.length
  let sgn : Int := match s1 with
    | '-' :: _ => -1
    | _ => 1
  let s2 : Str := match s1 with
    | '+' :: r => r
    | '-' :: r => r
    | _ => s1
  let ds := takeDigits s2
  if ds = [] then .invalid
  else
    let v : Int := sgn * (digitsToNat ds : Int)
    if v < LLONG_MIN ∨ LLONG_MAX < v then .range
    else .ok v (ws.length + (s1.length - s2.length) + ds.length)

/-- `arg::_get<long long>` (fire.hpp:629-653) on a located
(raw value, kind) pair, with `_int_value` as the declared default.
Returns the `optional<long long>` result plus the failed
deferred-assert messages in occurrence order.  After a caught
`out_of_range` the source leaves `converted = 0` and `last = 0`, so the
"is not an integer" assert also fails; after `invalid_argument` it
returns `converted = 0` with only that assert failing. -/
def get_long_long (idHelp : String) (elem : Str × ArgType) (int_default : Option Int) :
    Option Int × List String :=
  let mustVal : List String :=
    if elem.2 = ArgType.bool_t then ["argument " ++ idHelp ++ " must have value"] else []
  match elem.2 with
  | ArgType.string_t =>
    match stoll elem.1 with
    | .ok v last =>
      if last = elem.1.length then (some v, [])
      else (some v, ["value " ++ mkS elem.1 ++ " is not an integer"])
    | .range =>
      (some 0, ["value " ++ mkS elem.1 ++ " out of range",
                "value " ++ mkS elem.1 ++ " is not an integer"])
    | .invalid => (some 0, ["value " ++ mkS elem.1 ++ " is not an integer"])
  | _ => (int_default, mustVal)

/-- A target integral width: `std::numeric_limits<T>` data for the
requested type `T` of `arg::_get_with_precision` (fire.hpp:686-703). -/
structure IntWidth where
  signed : Bool
  bits : Nat

/-- `std::numeric_limits<T>::lowest()`. -/
def IntWidth.tmin (w : IntWidth) : Int :=
  if w.signed then -(2 ^ (w.bits - 1)) else 0

/-- `std::numeric_limits<T>::max()`. -/
def IntWidth.tmax (w : IntWidth) : Int :=
  if w.signed then 2 ^ (w.bits - 1) - 1 else 2 ^ w.bits - 1

/-- The C++ conversion `(T) value` from `long long` (fire.hpp:702):
reduction modulo `2^bits`, re-centred for a signed target. -/
def wrapCast (w : IntWidth) (v : Int) : Int :=
  let m := v % (2 ^ w.bits : Int)
  if w.signed ∧ (2 ^ (w.bits - 1) : Int) ≤ m then m - 2 ^ w.bits else m

/-- The `min <= value && value <= max` test at fire.hpp:699.  For a
64-bit unsigned target the usual arithmetic conversions perform the
comparison in `unsigned long long`, where every converted value lies in
`[0, 2^64)`, so the test always passes; for every other target both
sides convert to `long long` and the comparison is exact. -/
def rangeOk (w : IntWidth) (v : Int) : Bool :=
  if w.signed = false ∧ w.bits = 64 then true
  else decide (w.tmin ≤ v ∧ v ≤ w.tmax)

/-- `arg::_get_with_precision<T>` for an integral non-bool `T`
(fire.hpp:686-703): fetch via `_get<long long>`, then the
`must be positive` and `out of range` deferred asserts, then the cast. -/
def get_with_precision_int (idHelp : String) (w : IntWidth) (elem : Str × ArgType)
    (int_default : Option Int) : Option Int × List String :=
  match get_long_long idHelp elem int_default with
  | (none, errs) => (none, errs)
  | (some v, errs) =>
    (some (wrapCast w v),
     errs
       ++ (if w.signed ∨ 0 ≤ v then [] else ["argument " ++ idHelp ++ " must be positive"])
       ++ (if rangeOk w v then [] else ["value " ++ toString v ++ " out of range"]))

/-! ### End-of-run check (fire.hpp:377-435) -/

/-- How a `_matcher::check` call concludes: return to the caller, the
`exit(0)` help path (fire.hpp:391-394), or the `exit(_failure_code)`
deferred-error report (fire.hpp:399-402). -/
inductive CheckOutcome
  | cont
  | helpExit
  | failExit (msg : String)
deriving DecidableEq

/-- The process exit status produced by each outcome
(`_failure_code = 1`, fire.hpp:48). -/
def exitCodeOf : CheckOutcome → Option Nat
  | .cont => none
  | .helpExit => some 0
  | .failExit _ => some 1

/-- A strict-mode `deferred_assert` (fire.hpp:565-573): record the
message into the slot when the condition fails.  `check_named` and
`check_positional` are only reached when `_strict` holds. -/
def recordErr (m : Matcher) (id : Identifier) (pass : Bool) (msg : String) : Matcher :=
  if pass then m else { m with deferred := m.deferred.set id msg }

/-- The named entries not contained by any queried identifier
(fire.hpp:405-416). -/
def invalidNamed (m : Matcher) : List Str :=
  (m.named.filter (fun e => !(m.queried.any (fun q => q.containsName e.1)))).map (·.1)

/-- The `" -x"`-style joining of invalid names (fire.hpp:414). -/
def joinNames (l : List Str) : String :=
  l.foldl (fun a n => a ++ " " ++ mkS (prepend_hyphens n)) ""

/-- `_matcher::check_named` (fire.hpp:405-419). -/
def check_named (m : Matcher) : Matcher :=
  let inv := invalidNamed m
  recordErr m sentinel_id (decide (inv = []))
    ("invalid argument" ++ (if 1 < inv.length then "s" else "") ++ joinNames inv)

/-- The positional indices not contained by any queried identifier
(fire.hpp:421-432). -/
def invalidPos (m : Matcher) : List Nat :=
  (List.range m.positional.length).filter
    (fun i => !(m.queried.any (fun q => q.containsPos (i : Int))))

/-- The `" 3"`-style joining of invalid positional indices
(fire.hpp:430). -/
def joinNats (l : List Nat) : String :=
  l.foldl (fun a n => a ++ " " ++ toString n) ""

/-- `_matcher::check_positional` (fire.hpp:421-435). -/
def check_positional (m : Matcher) : Matcher :=
  let inv := invalidPos m
  recordErr m sentinel_id (decide (inv = []))
    ("invalid positional argument" ++ (if 1 < inv.length then "s" else "") ++ joinNats inv)

/-- The body of `_matcher::check` after the `_main_argc` decrement
(fire.hpp:389-402): return early unless strict with no declarations
left, take the help path if the help flag was present, otherwise
validate leftovers and flush the deferred-error slot. -/
def checkFlush (m : Matcher) : Matcher × CheckOutcome :=
  if ¬ m.strict ∨ 0 < m.main_argc then (m, .cont)
  else if m.help_flag then (m, .helpExit)
  else
    match (check_positional (check_named m)).deferred.slot with
    | some (_, msg) => (check_positional (check_named m), .failExit msg)
    | none => (check_positional (check_named m), .cont)

/-- `_matcher::check` (fire.hpp:387-403): the `_main_argc -=
dec_main_argc` decrement followed by the flush logic. -/
def Matcher.check (m0 : Matcher) (dec_main_argc : Bool) : Matcher × CheckOutcome :=
  checkFlush { m0 with main_argc := m0.main_argc - (if dec_main_argc then 1 else 0) }

/-- The reserved help identifier `identifier({"h", "help"})`
(fire.hpp:383): short `h`, long `help`. -/
def helpId : Identifier := ⟨some ['h'], some ['h', 'e', 'l', 'p'], none, false⟩

/-- Line 383 of the `_matcher` constructor:
`_help_flag = get_and_mark_as_queried(identifier({"h","help"})).second != arg_type::none_t`. -/
def Matcher.computeHelpFlag (m : Matcher) : Except Fatal (Matcher × Bool) :=
  match m.get_and_mark_as_queried helpId with
  | .error f => .error f
  | .ok (r, m1) =>
    .ok ({ m1 with help_flag := decide (r.2 ≠ ArgType.none_t) },
         decide (r.2 ≠ ArgType.none_t))

deriving instance DecidableEq for Except

/-- The located (raw value, kind) pair of a query that did not hit a
programmer-side fatal error. -/
def resultOf (e : Except Fatal ((Str × ArgType) × Matcher)) : Option (Str × ArgType) :=
  match e with
  | .ok (r, _) => some r
  | .error _ => none

/-- A non-strict matcher over empty token tables. -/
def c3m0 : Matcher := ⟨[], [], [], ⟨none⟩, 0, false, false, false⟩

/-- A long-name identifier `--foo`. -/
def c3id : Identifier := long_id ['f', 'o', 'o']

/-- Querying the same long-name identifier twice against a non-strict
matcher: `true` when either query hits a fatal error, `false` when both
succeed. -/
def c3run : Bool :=
  match c3m0.get_and_mark_as_queried c3id with
  | .error _ => true
  | .ok (_, m1) =>
    match m1.get_and_mark_as_queried c3id with
    | .error _ => true
    | .ok _ => false

/-- The set-and-fold of the deferred error slot over a run's failing
validations, starting from the empty slot (run start). -/
def firstFold (l : List (Identifier × String)) : First :=
  l.foldl (fun f p => f.set p.1 p.2) ⟨none⟩

/-- The decimal string `9223372036854775808` (the value 2^63): inside
the range of an unsigned 64-bit target, but above `LLONG_MAX`. -/
def c2str : Str :=
  ['9', '2', '2', '3', '3', '7', '2', '0', '3', '6', '8', '5', '4', '7', '7', '5', '8', '0', '8']

/-! ### Supporting lemmas -/

theorem findNamed_eq_none (id : Identifier) (hs : id.short_name = none)
    (hl : id.long_name = none) (l : List (Str × Option Str)) :
    findNamed id l = none := by
  induction l with
  | nil => rfl
  | cons e rest ih => simp [findNamed, Identifier.containsName, hs, hl, ih]

theorem markQueried_named (m : Matcher) (id : Identifier) :
    (m.markQueried id).named = m.named := by
  unfold Matcher.markQueried
  split <;> rfl

theorem markQueried_positional (m : Matcher) (id : Identifier) :
    (m.markQueried id).positional = m.positional := by
  unfold Matcher.markQueried
  split <;> rfl

theorem markQueried_space_assignment (m : Matcher) (id : Identifier) :
    (m.markQueried id).space_assignment = m.space_assignment := by
  unfold Matcher.markQueried
  split <;> rfl

theorem markQueried_queried_strict (m : Matcher) (id : Identifier) (hs : m.strict = true) :
    (m.markQueried id).queried = m.queried ++ [id] := by
  unfold Matcher.markQueried
  rw [if_pos hs]

theorem get_and_mark_ok_state (m : Matcher) (id : Identifier) (r : Str × ArgType)
    (m1 : Matcher) (h : m.get_and_mark_as_queried id = .ok (r, m1)) :
    m1 = m.markQueried id := by
  unfold Matcher.get_and_mark_as_queried at h
  split at h
  · simp at h
  · split at h
    · simp at h
    · split at h
      · simp only [Except.ok.injEq, Prod.mk.injEq] at h
        exact h.2.symm
      · simp only [Except.ok.injEq, Prod.mk.injEq] at h
        exact h.2.symm
      · split at h
        · split at h
          · simp only [Except.ok.injEq, Prod.mk.injEq] at h
            exact h.2.symm
          · simp only [Except.ok.injEq, Prod.mk.injEq] at h
            exact h.2.symm
        · simp only [Except.ok.injEq, Prod.mk.injEq] at h
          exact h.2.symm

theorem strLt_irrefl (s : Str) : strLt s s = false := by
  induction s with
  | nil => rfl
  | cons c t ih => simp [strLt, lt_self_iff_false, ih]

theorem strLt_asymm (a b : Str) (h : strLt a b = true) : strLt b a = false := by
  induction a generalizing b with
  | nil =>
    cases b with
    | nil => cases h
    | cons d u => rfl
  | cons c t ih =>
    cases b with
    | nil => simp [strLt] at h
    | cons d u =>
      unfold strLt at h ⊢
      by_cases h1 : c < d
      · rw [if_neg (lt_asymm h1), if_pos h1]
      · rw [if_neg h1] at h
        by_cases h2 : d < c
        · rw [if_pos h2] at h
          cases h
        · rw [if_neg h2] at h
          rw [if_neg h2, if_neg h1]
          exact ih u h

theorem strLt_trans (a b c : Str) (h1 : strLt a b = true) (h2 : strLt b c = true) :
    strLt a c = true := by
  induction a generalizing b c with
  | nil =>
    cases c with
    | nil =>
      cases b with
      | nil => exact h2
      | cons y ys => simp [strLt] at h2
    | cons z zs => rfl
  | cons x xs ih =>
    cases b with
    | nil => simp [strLt] at h1
    | cons y ys =>
      cases c with
      | nil => simp [strLt] at h2
      | cons z zs =>
        unfold strLt at h1 h2 ⊢
        by_cases hxy : x < y
        · by_cases hyz : y < z
          · rw [if_pos (lt_trans hxy hyz)]
          · rw [if_neg hyz] at h2
            by_cases hzy : z < y
            · rw [if_pos hzy] at h2
              cases h2
            · have hyz' : y = z := le_antisymm (not_lt.mp hzy) (not_lt.mp hyz)
              subst hyz'
              rw [if_pos hxy]
        · rw [if_neg hxy] at h1
          by_cases hyx : y < x
          · rw [if_pos hyx] at h1
            cases h1
          · rw [if_neg hyx] at h1
            have hxy' : x = y := le_antisymm (not_lt.mp hyx) (not_lt.mp hxy)
            subst hxy'
            by_cases hxz : x < z
            · rw [if_pos hxz]
            · rw [if_neg hxz] at h2 ⊢
              by_cases hzx : z < x
              · rw [if_pos hzx] at h2
                cases h2
              · rw [if_neg hzx] at h2 ⊢
                exact ih ys zs h1 h2

theorem strLt_conn (a b : Str) (h1 : strLt a b = false) (h2 : strLt b a = false) :
    a = b := by
  induction a generalizing b with
  | nil =>
    cases b with
    | nil => rfl
    | cons d u => simp [strLt] at h1
  | cons c t ih =>
    cases b with
    | nil => simp [strLt] at h2
    | cons d u =>
      unfold strLt at h1 h2
      by_cases hcd : c < d
      · rw [if_pos hcd] at h1
        cases h1
      · rw [if_neg hcd] at h1
        by_cases hdc : d < c
        · rw [if_pos hdc] at h2
          cases h2
        · rw [if_neg hdc] at h1
          rw [if_neg hdc, if_neg hcd] at h2
          have hcd' : c = d := le_antisymm (not_lt.mp hdc) (not_lt.mp hcd)
          rw [hcd', ih u h1 h2]

theorem identLt_irrefl (a : Identifier) : identLt a a = false := by
  unfold identLt
  rw [if_neg (by simp)]
  simp

theorem identLt_trans (a b c : Identifier) (h1 : identLt a b = true)
    (h2 : identLt b c = true) : identLt a c = true := by
  unfold identLt at h1 h2 ⊢
  by_cases hab : foldCase (keyName a) = foldCase (keyName b)
  · by_cases hbc : foldCase (keyName b) = foldCase (keyName c)
    · have hac := hab.trans hbc
      rw [if_neg (by simp [hab])] at h1
      rw [if_neg (by simp [hbc])] at h2
      rw [if_neg (by simp [hac])]
      simp only [decide_eq_true_eq] at h1 h2 ⊢
      omega
    · have hac : foldCase (keyName a) ≠ foldCase (keyName c) := by
        rw [hab]
        exact hbc
      rw [if_pos hbc] at h2
      rw [if_pos hac, hab]
      exact h2
  · by_cases hbc : foldCase (keyName b) = foldCase (keyName c)
    · have hac : foldCase (keyName a) ≠ foldCase (keyName c) := by
        intro he
        exact hab (he.trans hbc.symm)
      rw [if_pos hab] at h1
      rw [if_pos hac, ← hbc]
      exact h1
    · rw [if_pos hab] at h1
      rw [if_pos hbc] at h2
      have hac : foldCase (keyName a) ≠ foldCase (keyName c) := by
        intro he
        rw [he] at h1
        have := strLt_trans _ _ _ h2 h1
        rw [strLt_irrefl] at this
        cases this
      rw [if_pos hac]
      exact strLt_trans _ _ _ h1 h2

theorem identLt_negtrans (a b c : Identifier) (h1 : identLt a b = false)
    (h2 : identLt b c = false) : identLt a c = false := by
  unfold identLt at h1 h2 ⊢
  by_cases hab : foldCase (keyName a) = foldCase (keyName b)
  · by_cases hbc : foldCase (keyName b) = foldCase (keyName c)
    · have hac := hab.trans hbc
      rw [if_neg (by simp [hab])] at h1
      rw [if_neg (by simp [hbc])] at h2
      rw [if_neg (by simp [hac])]
      simp only [decide_eq_false_iff_not, not_lt] at h1 h2 ⊢
      omega
    · have hac : foldCase (keyName a) ≠ foldCase (keyName c) := by
        rw [hab]
        exact hbc
      rw [if_pos hbc] at h2
      rw [if_pos hac, hab]
      exact h2
  · by_cases hbc : foldCase (keyName b) = foldCase (keyName c)
    · have hac : foldCase (keyName a) ≠ foldCase (keyName c) := by
        intro he
        exact hab (he.trans hbc.symm)
      rw [if_pos hab] at h1
      rw [if_pos hac, ← hbc]
      exact h1
    · rw [if_pos hab] at h1
      rw [if_pos hbc] at h2
      by_cases hac : foldCase (keyName a) = foldCase (keyName c)
      · exfalso
        apply hab
        apply strLt_conn _ _ h1
        rw [← hac] at h2
        exact h2
      · rw [if_pos hac]
        have hba : strLt (foldCase (keyName b)) (foldCase (keyName a)) = true := by
          by_contra hx
          exact hab (strLt_conn _ _ h1 (by simpa using hx))
        have hcb : strLt (foldCase (keyName c)) (foldCase (keyName b)) = true := by
          by_contra hx
          exact hbc (strLt_conn _ _ h2 (by simpa using hx))
        exact strLt_asymm _ _ (strLt_trans _ _ _ hcb hba)

theorem set_of_none (f : First) (o : Identifier) (v : String) (hf : f.slot = none) :
    f.set o v = ⟨some (o, v)⟩ := by
  unfold First.set
  rw [hf]

theorem set_of_lt (f : First) (o : Identifier) (v : String) (po : Identifier)
    (pv : String) (hf : f.slot = some (po, pv)) (hlt : identLt o po = true) :
    f.set o v = ⟨some (o, v)⟩ := by
  unfold First.set
  rw [hf]
  simp [hlt]

theorem set_of_ge (f : First) (o : Identifier) (v : String) (po : Identifier)
    (pv : String) (hf : f.slot = some (po, pv)) (hlt : identLt o po = false) :
    f.set o v = f := by
  unfold First.set
  rw [hf]
  simp [hlt]

theorem set_isSome (f : First) (o : Identifier) (v : String) :
    ((f.set o v).slot).isSome = true := by
  unfold First.set
  cases hf : f.slot with
  | none => rfl
  | some pp =>
    obtain ⟨po, pv⟩ := pp
    by_cases h : identLt o po = true
    · simp [h]
    · simp [h, hf]

theorem foldl_set_isSome (l : List (Identifier × String)) :
    ∀ f : First, f.slot.isSome = true →
      ((l.foldl (fun a p => a.set p.1 p.2) f).slot).isSome = true := by
  induction l with
  | nil => exact fun f h => h
  | cons q rest ih =>
    intro f h
    simp only [List.foldl_cons]
    exact ih _ (set_isSome f q.1 q.2)

theorem firstFold_aux (l : List (Identifier × String)) :
    ∀ (f : First) (o : Identifier) (v : String),
      (l.foldl (fun a p => a.set p.1 p.2) f).slot = some (o, v) →
      ((o, v) ∈ l ∨ f.slot = some (o, v))
      ∧ (∀ p ∈ l, identLt p.1 o = false)
      ∧ (∀ po pv, f.slot = some (po, pv) → identLt po o = false) := by
  induction l with
  | nil =>
    intro f o v h
    simp only [List.foldl_nil] at h
    refine ⟨Or.inr h, by simp, ?_⟩
    intro po pv hf
    rw [h] at hf
    simp only [Option.some.injEq, Prod.mk.injEq] at hf
    rw [← hf.1]
    exact identLt_irrefl o
  | cons q rest ih =>
    intro f o v h
    simp only [List.foldl_cons] at h
    obtain ⟨hmem, hall, hinit⟩ := ih (f.set q.1 q.2) o v h
    refine ⟨?_, ?_, ?_⟩
    · rcases hmem with hm | hm
      · exact Or.inl (List.mem_cons_of_mem _ hm)
      · cases hf : f.slot with
        | none =>
          rw [set_of_none f q.1 q.2 hf] at hm
          simp only [Option.some.injEq, Prod.mk.injEq] at hm
          exact Or.inl (by rw [← hm.1, ← hm.2]; exact List.mem_cons_self _ _)
        | some pp =>
          obtain ⟨po, pv⟩ := pp
          by_cases hlt : identLt q.1 po = true
          · rw [set_of_lt f q.1 q.2 po pv hf hlt] at hm
            simp only [Option.some.injEq, Prod.mk.injEq] at hm
            exact Or.inl (by rw [← hm.1, ← hm.2]; exact List.mem_cons_self _ _)
          · rw [set_of_ge f q.1 q.2 po pv hf (by simpa using hlt)] at hm
            exact Or.inr (by rw [← hf]; exact hm)
    · intro p hp
      rcases List.mem_cons.mp hp with hph | hp'
      · rw [hph]
        cases hf : f.slot with
        | none =>
          exact hinit q.1 q.2 (by rw [set_of_none f q.1 q.2 hf])
        | some pp =>
          obtain ⟨po, pv⟩ := pp
          by_cases hlt : identLt q.1 po = true
          · exact hinit q.1 q.2 (by rw [set_of_lt f q.1 q.2 po pv hf hlt])
          · have hpo : identLt po o = false :=
              hinit po pv (by rw [set_of_ge f q.1 q.2 po pv hf (by simpa using hlt)]; exact hf)
            exact identLt_negtrans q.1 po o (by simpa using hlt) hpo
      · exact hall p hp'
    · intro po pv hf
      by_cases hlt : identLt q.1 po = true
      · have h1 : identLt q.1 o = false :=
          hinit q.1 q.2 (by rw [set_of_lt f q.1 q.2 po pv hf hlt])
        by_contra hc
        have hpoo : identLt po o = true := by simpa using hc
        have := identLt_trans q.1 po o hlt hpoo
        rw [h1] at this
        cases this
      · exact hinit po pv (by rw [set_of_ge f q.1 q.2 po pv hf (by simpa using hlt)]; exact hf)

/-! ### Claim theorems -/

/-- C10: querying an identifier that carries a positional index while
space assignment is enabled is an immediate programmer-side fatal error,
unconditionally in the matcher state (so before any table resolution)
and independently of strict mode. -/
theorem c10_pos_query_fatal_under_space_assignment (m : Matcher) (id : Identifier)
    (hsa : m.space_assignment = true) (hpos : id.pos.isSome = true) :
    m.get_and_mark_as_queried id = .error ⟨true, spaceAssignMsg⟩ := by
  unfold Matcher.get_and_mark_as_queried
  rw [if_pos ⟨hsa, hpos⟩]

theorem c10_witness :
    Matcher.get_and_mark_as_queried ⟨[], [], [], ⟨none⟩, 0, true, false, false⟩ (pos_id 7)
      = .error ⟨true, spaceAssignMsg⟩ :=
  c10_pos_query_fatal_under_space_assignment _ (pos_id 7) rfl rfl

/-- C4: with space assignment disabled (the mode in which positional
queries are allowed), a purely positional identifier whose index is not
covered by the positional sequence resolves to the `none_t` (absent)
kind with an empty raw value; the lookup is guarded, so no out-of-bounds
access can occur. -/
theorem c4_positional_out_of_range_absent (m : Matcher) (id : Identifier) (i : Int)
    (hsa : m.space_assignment = false)
    (hshort : id.short_name = none) (hlong : id.long_name = none)
    (hpos : id.pos = some i)
    (hq : ∀ q ∈ m.queried, q.overlaps id = false)
    (hlen : (m.positional.length : Int) ≤ i) :
    resultOf (m.get_and_mark_as_queried id) = some ([], ArgType.none_t) := by
  unfold Matcher.get_and_mark_as_queried
  rw [if_neg (by simp [hsa])]
  rw [if_neg (by
    simp only [List.any_eq_true, not_exists]
    rintro q ⟨hm, ho⟩
    simp [hq q hm] at ho)]
  simp only [findNamed_eq_none id hshort hlong, hpos, markQueried_positional]
  rw [dif_neg (by omega)]
  rfl

theorem c4_witness :
    resultOf (Matcher.get_and_mark_as_queried ⟨[], [], [], ⟨none⟩, 0, false, false, false⟩
      (pos_id 5)) = some ([], ArgType.none_t) :=
  c4_positional_out_of_range_absent _ (pos_id 5) 5 rfl rfl rfl rfl
    (by intro q hq; simp at hq) (by decide)

/-- C1 (counterexample to the claim as stated): with space assignment
disabled, the token `x` lands in the positional set and `parse` records
no deferred error at all. -/
theorem c1_counterexample :
    (parseAll false [['x']]).2.1 = [['x']] ∧ (parseAll false [['x']]).2.2 = [] := by
  decide

/-- C1 (amended): it is with space assignment *enabled* that tokens
landing in the positional set raise the deferred error "positional
arguments given, but not accepted"; positional tokens are accepted only
when space assignment is disabled. -/
theorem c1_amended_positional_rejected_when_enabled (raw : List Str)
    (h : (parseAll true raw).2.1 ≠ []) :
    posNotAcceptedMsg ∈ (parseAll true raw).2.2 := by
  unfold parseAll at h ⊢
  exact List.mem_append_right _ (by rw [if_pos ⟨rfl, h⟩]; exact List.mem_singleton_self _)

theorem c1_witness :
    (parseAll true [['x']]).2.1 ≠ [] ∧ posNotAcceptedMsg ∈ (parseAll true [['x']]).2.2 :=
  ⟨by decide, c1_amended_positional_rejected_when_enabled [['x']] (by decide)⟩

/-- C6 (counterexample to the claim as stated): the identifier with
positional index 1000000 shares its (empty) primary key with the
index-less vector sentinel, yet does not sort before it — the source
compares `pos.value_or(1000000)`, so index 1000000 and an absent index
are order-equivalent. -/
theorem c6_counterexample :
    keyName (pos_id 1000000) = keyName sentinel_id ∧
    identLt (pos_id 1000000) sentinel_id = false := by
  decide

/-- C6 (amended): the ordering compares primarily by the case-folded
long-else-short-else-empty name; on equal primary keys it compares
`pos.value_or(1000000)`, so an identifier without an index sorts after
exactly those whose index is below the sentinel value 1000000. -/
theorem c6_amended_ordering (a b : Identifier) :
    (foldCase (keyName a) ≠ foldCase (keyName b) →
      identLt a b = strLt (foldCase (keyName a)) (foldCase (keyName b)))
    ∧ (foldCase (keyName a) = foldCase (keyName b) →
      identLt a b = decide (a.pos.getD 1000000 < b.pos.getD 1000000))
    ∧ (∀ i : Int, foldCase (keyName a) = foldCase (keyName b) →
      a.pos = some i → i < 1000000 → b.pos = none → identLt a b = true) := by
  refine ⟨?_, ?_, ?_⟩
  · intro h
    unfold identLt
    rw [if_pos h]
  · intro h
    unfold identLt
    rw [if_neg (by simp [h])]
  · intro i h hp hlt hb
    unfold identLt
    rw [if_neg (by simp [h])]
    simp [hp, hb, hlt]

theorem c6_witness :
    identLt (pos_id 2) sentinel_id = true :=
  (c6_amended_ordering (pos_id 2) sentinel_id).2.2 2 rfl rfl (by decide) rfl

/-- C7: for either space-assignment configuration, the single token
`-abc` classifies into exactly the same (named table, positional
sequence, deferred errors) as the three tokens `-a` `-b` `-c`, namely
one value-less flag entry per character. -/
theorem c7_bundled_short_flags :
    (∀ sa : Bool,
      parseAll sa [['-', 'a', 'b', 'c']] = parseAll sa [['-', 'a'], ['-', 'b'], ['-', 'c']])
    ∧ (parseAll true [['-', 'a', 'b', 'c']]).1
        = [(['a'], none), (['b'], none), (['c'], none)] := by
  exact ⟨by decide, by decide⟩

/-- C8 (counterexample to the claim as stated): for the value string
`a=b`, the single token `--name=a=b` yields the entry
`(name, "a=b")`, while the pair `--name` `a=b` (space assignment
enabled) re-splits the continuation at its own `=` and yields
`(name, "b")` — the two runs resolve differently. -/
theorem c8_counterexample :
    (parseAll true [['-', '-', 'n', 'a', 'm', 'e', '=', 'a', '=', 'b']]).1
      = [(['n', 'a', 'm', 'e'], some ['a', '=', 'b'])]
    ∧ (parseAll true [['-', '-', 'n', 'a', 'm', 'e'], ['a', '=', 'b']]).1
      = [(['n', 'a', 'm', 'e'], some ['b'])]
    ∧ (parseAll true [['-', '-', 'n', 'a', 'm', 'e', '=', 'a', '=', 'b']]).1
      ≠ (parseAll true [['-', '-', 'n', 'a', 'm', 'e'], ['a', '=', 'b']]).1 := by
  decide

/-- C3 (counterexample to the claim as stated): in a non-strict run the
query ledger is never populated (`_queried.push_back` is guarded by
`_strict`), so querying the same long-name identifier twice hits no
fatal error at all — `c3run` observes both queries succeeding. -/
theorem c3_counterexample : c3run = false := by decide

/-- C3 (amended): in a strict run, a query overlapping a previously
queried identifier is an immediate programmer-side fatal error; in a
non-strict run the ledger stays empty and the overlap is undetected. -/
theorem c3_amended_strict_double_query (m : Matcher) (id1 id2 : Identifier)
    (r : Str × ArgType) (m1 : Matcher)
    (hs : m.strict = true) (hsa : m.space_assignment = false)
    (h1 : m.get_and_mark_as_queried id1 = .ok (r, m1))
    (hov : id1.overlaps id2 = true) :
    m1.get_and_mark_as_queried id2 = .error ⟨true, doubleQueryMsg⟩ := by
  have hm1 := get_and_mark_ok_state m id1 r m1 h1
  subst hm1
  unfold Matcher.get_and_mark_as_queried
  rw [if_neg (by simp [markQueried_space_assignment, hsa])]
  rw [if_pos (by simp [markQueried_queried_strict m id1 hs, List.any_append, hov])]

theorem stoll_ok_bounds (s : Str) (v : Int) (l : Nat) (h : stoll s = .ok v l) :
    LLONG_MIN ≤ v ∧ v ≤ LLONG_MAX := by
  simp only [stoll] at h
  split at h
  · simp at h
  · split at h
    · simp at h
    · rename_i h2
      simp only [StollRes.ok.injEq] at h
      rw [h.1] at h2
      push_neg at h2
      exact h2

theorem wrapCast_eq_self (w : IntWidth) (v : Int) (h0 : 0 < w.bits)
    (h1 : w.tmin ≤ v) (h2 : v ≤ w.tmax) : wrapCast w v = v := by
  unfold IntWidth.tmin at h1
  unfold IntWidth.tmax at h2
  unfold wrapCast
  have hb : (2 : Int) ^ w.bits = 2 * 2 ^ (w.bits - 1) := by
    conv_lhs => rw [show w.bits = (w.bits - 1) + 1 from (Nat.succ_pred_eq_of_pos h0).symm]
    rw [pow_succ]
    ring
  have hQ : (0 : Int) < 2 ^ (w.bits - 1) := pow_pos (by norm_num) _
  by_cases hs : w.signed = true
  · rw [if_pos hs] at h1
    rw [if_pos hs] at h2
    by_cases hv : 0 ≤ v
    · have hm : v % (2 ^ w.bits) = v := Int.emod_eq_of_lt hv (by omega)
      rw [hm, if_neg (by rw [hs]; simp only [true_and]; omega)]
    · have hlow : (0 : Int) ≤ v + 2 ^ w.bits := by omega
      have hhigh : v + 2 ^ w.bits < 2 ^ w.bits := by omega
      have hm : v % (2 ^ w.bits) = v + 2 ^ w.bits := by
        have hshift : (v + 2 ^ w.bits) % (2 ^ w.bits) = v % (2 ^ w.bits) := by
          conv_lhs => rw [show v + 2 ^ w.bits = v + 2 ^ w.bits * 1 by ring]
          exact Int.add_mul_emod_self_left v (2 ^ w.bits) 1
        rw [← hshift]
        exact Int.emod_eq_of_lt hlow hhigh
      rw [hm, if_pos (by rw [hs]; exact ⟨rfl, by omega⟩)]
      ring
  · rw [if_neg hs] at h1
    rw [if_neg hs] at h2
    have hm : v % (2 ^ w.bits) = v := Int.emod_eq_of_lt h1 (by omega)
    rw [hm, if_neg (by rintro ⟨hc, _⟩; exact hs hc)]

/-- C2 (counterexample to the claim as stated): the decimal string
`9223372036854775808` denotes 2^63, which lies within the unsigned
64-bit target's [min,max] range, yet coercion does not return that
value: `std::stoll` throws `out_of_range` before width narrowing ever
runs (fire.hpp:639-641), `converted` stays 0, and the result is 0 with
the "out of range" (and consequent "is not an integer") errors
recorded. -/
theorem c2_counterexample :
    (digitsToNat c2str : Int) = 9223372036854775808
    ∧ IntWidth.tmin ⟨false, 64⟩ ≤ (9223372036854775808 : Int)
    ∧ (9223372036854775808 : Int) ≤ IntWidth.tmax ⟨false, 64⟩
    ∧ stoll c2str = StollRes.range
    ∧ get_with_precision_int "n" ⟨false, 64⟩ (c2str, ArgType.string_t) none
      = (some 0, ["value 9223372036854775808 out of range",
                  "value 9223372036854775808 is not an integer"]) := by
  decide

/-- C2 (amended): exact round-trip holds for every decimal string that
the maximal-precision `long long` parse consumes entirely, whenever the
parsed value also fits the requested width: coercion then returns
exactly that value with no error.  A parsed value outside the width's
range records "must be positive" (negative value, unsigned target) or
"out of range", never silently just the truncated value; and a string
whose value overflows `long long` — even one inside an unsigned 64-bit
target's range — records "out of range" instead of round-tripping. -/
theorem c2_integer_coercion (idHelp : String) (w : IntWidth) (s : Str) (d : Option Int)
    (hb : 0 < w.bits) (_hb64 : w.bits ≤ 64) :
    (∀ v : Int, stoll s = .ok v s.length → w.tmin ≤ v → v ≤ w.tmax →
      get_with_precision_int idHelp w (s, ArgType.string_t) d = (some v, []))
    ∧ (∀ v : Int, stoll s = .ok v s.length → (v < w.tmin ∨ w.tmax < v) →
      (get_with_precision_int idHelp w (s, ArgType.string_t) d).2 ≠ []
      ∧ (if w.signed = false ∧ v < 0 then ("argument " ++ idHelp ++ " must be positive")
         else ("value " ++ toString v ++ " out of range"))
        ∈ (get_with_precision_int idHelp w (s, ArgType.string_t) d).2)
    ∧ (stoll s = .range →
      ("value " ++ mkS s ++ " out of range")
        ∈ (get_with_precision_int idHelp w (s, ArgType.string_t) d).2) := by
  refine ⟨?_, ?_, ?_⟩
  · intro v hst hmin hmax
    have hgll : get_long_long idHelp (s, ArgType.string_t) d = (some v, []) := by
      simp [get_long_long, hst]
    have he1 : w.signed = true ∨ (0 : Int) ≤ v := by
      by_cases hs : w.signed = true
      · exact Or.inl hs
      · right
        unfold IntWidth.tmin at hmin
        rw [if_neg hs] at hmin
        exact hmin
    have he2 : rangeOk w v = true := by
      unfold rangeOk
      split
      · rfl
      · simp only [decide_eq_true_eq]
        exact ⟨hmin, hmax⟩
    simp [get_with_precision_int, hgll, he1, he2, wrapCast_eq_self w v hb hmin hmax]
  · intro v hst hout
    have hgll : get_long_long idHelp (s, ArgType.string_t) d = (some v, []) := by
      simp [get_long_long, hst]
    have hbnd := stoll_ok_bounds s v s.length hst
    by_cases hneg : w.signed = false ∧ v < 0
    · have he1 : ¬(w.signed = true ∨ (0 : Int) ≤ v) := by
        push_neg
        refine ⟨?_, by omega⟩
        rw [hneg.1]
        simp
      rw [if_pos hneg]
      constructor
      · simp [get_with_precision_int, hgll, he1]
      · simp [get_with_precision_int, hgll, he1, List.mem_append]
    · have hro : rangeOk w v = false := by
        unfold rangeOk
        split
        · rename_i hcase
          exfalso
          unfold IntWidth.tmin IntWidth.tmax at hout
          rw [hcase.1] at hout
          rw [hcase.2] at hout
          simp only [Bool.false_eq_true, if_false] at hout
          have hv0 : (0 : Int) ≤ v := by
            rcases not_and_or.mp hneg with hc | hc
            · exact absurd hcase.1 hc
            · omega
          have hp : (2 : Int) ^ 64 = 18446744073709551616 := by norm_num
          unfold LLONG_MIN LLONG_MAX at hbnd
          omega
        · simp only [decide_eq_false_iff_not]
          intro hcon
          rcases hout with hh | hh
          · omega
          · omega
      rw [if_neg hneg]
      constructor
      · simp [get_with_precision_int, hgll, hro]
      · simp [get_with_precision_int, hgll, hro, List.mem_append]
  · intro hst
    simp [get_with_precision_int, get_long_long, hst, List.mem_append]

/-- C2 witness: `100` fits a signed 8-bit target exactly with no error,
and `200` does not, recording the out-of-range message. -/
theorem c2_witness :
    get_with_precision_int "n" ⟨true, 8⟩ (['1', '0', '0'], ArgType.string_t) none
      = (some 100, [])
    ∧ ("value 200 out of range")
        ∈ (get_with_precision_int "n" ⟨true, 8⟩ (['2', '0', '0'], ArgType.string_t) none).2 := by
  constructor
  · exact (c2_integer_coercion "n" ⟨true, 8⟩ ['1', '0', '0'] none (by decide) (by decide)).1
      100 (by decide) (by decide) (by decide)
  · have h := (c2_integer_coercion "n" ⟨true, 8⟩ ['2', '0', '0'] none (by decide) (by decide)).2.1
      200 (by decide) (by decide)
    have h2 := h.2
    rw [if_neg (by decide)] at h2
    have he : ("value " ++ toString (200 : Int) ++ " out of range") = "value 200 out of range" := by
      decide
    rw [he] at h2
    exact h2

/-- C3 (amended) witness: a concrete strict matcher in which the second
query of the long name `foo` is the programmer-side fatal error. -/
theorem c3_witness :
    Matcher.get_and_mark_as_queried ⟨[], [], [], ⟨none⟩, 0, false, true, false⟩ c3id
      = .ok (([], ArgType.none_t), ⟨[], [], [c3id], ⟨none⟩, 0, false, true, false⟩)
    ∧ Matcher.get_and_mark_as_queried ⟨[], [], [c3id], ⟨none⟩, 0, false, true, false⟩ c3id
      = .error ⟨true, doubleQueryMsg⟩ :=
  ⟨by decide,
   c3_amended_strict_double_query ⟨[], [], [], ⟨none⟩, 0, false, true, false⟩ c3id c3id
     ([], ArgType.none_t) ⟨[], [], [c3id], ⟨none⟩, 0, false, true, false⟩
     rfl rfl (by decide) (by decide)⟩

/-- C5: the deferred error slot (an `Option`, hence at most one pair)
after any sequence of `set` operations from the empty slot holds a
recorded pair that no recorded identifier strictly precedes in the
ordering; a `set` whose identifier does not strictly precede the held
one leaves the slot unchanged; and the slot is non-empty as soon as
anything was recorded. -/
theorem c5_deferred_slot (l : List (Identifier × String)) :
    (∀ o v, (firstFold l).slot = some (o, v) →
      ((o, v) ∈ l ∧ ∀ p ∈ l, identLt p.1 o = false))
    ∧ (∀ (f : First) (po : Identifier) (pv : String) (o : Identifier) (v : String),
        f.slot = some (po, pv) → identLt o po = false → f.set o v = f)
    ∧ (l ≠ [] → ((firstFold l).slot).isSome = true) := by
  refine ⟨?_, ?_, ?_⟩
  · intro o v h
    obtain ⟨hm, hall, _⟩ := firstFold_aux l ⟨none⟩ o v h
    refine ⟨?_, hall⟩
    rcases hm with hm | hm
    · exact hm
    · simp at hm
  · intro f po pv o v hs hlt
    exact set_of_ge f o v po pv hs hlt
  · intro hne
    cases l with
    | nil => exact absurd rfl hne
    | cons q rest =>
      unfold firstFold
      simp only [List.foldl_cons]
      exact foldl_set_isSome rest _ (set_isSome ⟨none⟩ q.1 q.2)

/-- C5 witness: among two recorded errors the slot retains the one with
the smaller positional index, and it is a member of the recorded list
that nothing recorded strictly precedes. -/
theorem c5_witness :
    (firstFold [(pos_id 3, "x"), (pos_id 1, "y")]).slot = some (pos_id 1, "y")
    ∧ ((pos_id 1, "y") ∈ [(pos_id 3, "x"), (pos_id 1, "y")]
       ∧ ∀ p ∈ [(pos_id 3, "x"), (pos_id 1, "y")], identLt p.1 (pos_id 1) = false) :=
  ⟨by decide, (c5_deferred_slot [(pos_id 3, "x"), (pos_id 1, "y")]).1 (pos_id 1) "y" (by decide)⟩

theorem count_hyphens_append_zero (n x : Str) (h : count_hyphens n = 0) (hne : n ≠ []) :
    count_hyphens (n ++ x) = 0 := by
  cases n with
  | nil => exact absurd rfl hne
  | cons c t =>
    have hc : ¬ c = '-' := by
      intro hc
      simp [count_hyphens, hc] at h
    simp [count_hyphens, hc]

theorem count_hyphens_dd (l : Str) (h : count_hyphens l = 0) :
    count_hyphens ('-' :: '-' :: l) = 2 := by
  simp [count_hyphens, h]

theorem findEq_none (l : Str) (h : '=' ∉ l) : findEq l = none := by
  induction l with
  | nil => rfl
  | cons c t ih =>
    simp only [List.mem_cons, not_or] at h
    have hc : ¬ c = '=' := fun hc => h.1 hc.symm
    simp [findEq, hc, ih h.2]

theorem findEq_append (l r : Str) (h : '=' ∉ l) :
    findEq (l ++ '=' :: r) = some l.length := by
  induction l with
  | nil => rfl
  | cons c t ih =>
    simp only [List.mem_cons, not_or] at h
    have hc : ¬ c = '=' := fun hc => h.1 hc.symm
    simp [findEq, hc, ih h.2]

theorem mem_eq_dd (n : Str) : ('=' ∈ '-' :: '-' :: n) ↔ ('=' ∈ n) := by
  simp [List.mem_cons]

theorem sep_single (sa tn : Bool) (t : Str) (ht : count_hyphens t = 2) :
    separate_named_positional sa tn [t] = ([t], [], []) := by
  simp [separate_named_positional, ht]

theorem sep_pair (t v : Str) (ht : count_hyphens t = 2) (hte : '=' ∉ t)
    (hv : count_hyphens v = 0) :
    separate_named_positional true false [t, v] = ([t, v], [], []) := by
  simp [separate_named_positional, ht, hv, hte]

/-- C8 (amended): for a well-formed long name (length ≥ 2, no leading
hyphen, no `=`) and a value that contains no `=` and does not begin
with a hyphen, the single token `--name=value` and the pair
`--name` `value` (space assignment enabled) classify into the same
state: the one-entry named table `[(name, value)]`, no positional
tokens, and no deferred errors. -/
theorem c8_amended_space_assignment_equivalence (n v : Str)
    (hn2 : 2 ≤ n.length) (hnh : count_hyphens n = 0)
    (hne : '=' ∉ n) (hve : '=' ∉ v) (hvh : count_hyphens v = 0) :
    parseAll true ['-' :: '-' :: (n ++ '=' :: v)] = parseAll true ['-' :: '-' :: n, v]
    ∧ parseAll true ['-' :: '-' :: n, v] = ([(n, some v)], [], []) := by
  have hnn : n ≠ [] := by
    intro he
    rw [he] at hn2
    simp at hn2
  have hddn : count_hyphens ('-' :: '-' :: n) = 2 := count_hyphens_dd n hnh
  have hddne : '=' ∉ '-' :: '-' :: n := by
    rw [mem_eq_dd]
    exact hne
  -- side A: the single token "--name=value"
  have hA1 : count_hyphens ('-' :: '-' :: (n ++ '=' :: v)) = 2 :=
    count_hyphens_dd _ (count_hyphens_append_zero n ('=' :: v) hnh hnn)
  have hfA : findEq ('-' :: '-' :: (n ++ '=' :: v)) = some (n.length + 2) := by
    have h0 := findEq_append n v hne
    simp [findEq, h0]
  have htakeA : ('-' :: '-' :: (n ++ '=' :: v)).take (n.length + 2) = '-' :: '-' :: n := by
    calc ('-' :: '-' :: (n ++ '=' :: v)).take (n.length + 2)
        = (('-' :: '-' :: n) ++ ('=' :: v)).take ('-' :: '-' :: n : Str).length := by simp
      _ = '-' :: '-' :: n := List.take_left _ _
  have hdropA : ('-' :: '-' :: (n ++ '=' :: v)).drop (n.length + 2 + 1) = v := by
    calc ('-' :: '-' :: (n ++ '=' :: v)).drop (n.length + 2 + 1)
        = (('-' :: '-' :: n) ++ ('=' :: v)).drop (('-' :: '-' :: n : Str).length + 1) := by simp
      _ = ('=' :: v).drop 1 := List.drop_append 1
      _ = v := rfl
  have hsplitA : split_equations ['-' :: '-' :: (n ++ '=' :: v)]
      = ([('-' :: '-' :: n, false), (v, true)], []) := by
    simp only [split_equations, hfA]
    rw [if_pos (Or.inr (by simp [hA1]))]
    rw [htakeA, hdropA]
  have hdrop2 : ('-' :: '-' :: n : Str).drop 2 = n := rfl
  have hassignA : assign_named_values [('-' :: '-' :: n, false), (v, true)]
      = ([(n, some v)], []) := by
    simp [assign_named_values, assignStep, hddn, hdrop2, hn2, setLast]
  have hA : parseAll true ['-' :: '-' :: (n ++ '=' :: v)] = ([(n, some v)], [], []) := by
    simp only [parseAll, sep_single true false ('-' :: '-' :: (n ++ '=' :: v)) hA1,
      hsplitA, hassignA]
    simp [dupErrsAux]
  -- side B: the pair "--name" "value"
  have hfB1 : findEq ('-' :: '-' :: n) = none := findEq_none _ hddne
  have hfB2 : findEq v = none := findEq_none _ hve
  have hsplitB : split_equations ['-' :: '-' :: n, v]
      = ([('-' :: '-' :: n, false), (v, false)], []) := by
    simp [split_equations, hfB1, hfB2]
  have hassignB : assign_named_values [('-' :: '-' :: n, false), (v, false)]
      = ([(n, some v)], []) := by
    simp [assign_named_values, assignStep, hddn, hdrop2, hn2, hvh, setLast]
  have hB : parseAll true ['-' :: '-' :: n, v] = ([(n, some v)], [], []) := by
    simp only [parseAll, sep_pair ('-' :: '-' :: n) v hddn hddne hvh, hsplitB, hassignB]
    simp [dupErrsAux]
  rw [hA, hB]
  exact ⟨rfl, rfl⟩

/-- C8 witness: the generic equivalence applied to `--name=val`
vs `--name` `val`. -/
theorem c8_witness :
    parseAll true ['-' :: '-' :: (['n', 'a', 'm', 'e'] ++ '=' :: ['v', 'a', 'l'])]
      = parseAll true [['-', '-', 'n', 'a', 'm', 'e'], ['v', 'a', 'l']]
    ∧ parseAll true [['-', '-', 'n', 'a', 'm', 'e'], ['v', 'a', 'l']]
      = ([(['n', 'a', 'm', 'e'], some ['v', 'a', 'l'])], [], []) :=
  c8_amended_space_assignment_equivalence ['n', 'a', 'm', 'e'] ['v', 'a', 'l']
    (by decide) (by decide) (by decide) (by decide) (by decide)

theorem findNamed_isSome (id : Identifier) (l : List (Str × Option Str))
    (h : ∃ e ∈ l, id.containsName e.1 = true) : (findNamed id l).isSome = true := by
  induction l with
  | nil => simp at h
  | cons e rest ih =>
    unfold findNamed
    by_cases hc : id.containsName e.1 = true
    · rw [if_pos hc]
      rfl
    · rw [if_neg hc]
      apply ih
      rcases h with ⟨f, hf, hcf⟩
      rcases List.mem_cons.mp hf with rfl | hf'
      · exact absurd hcf hc
      · exact ⟨f, hf', hcf⟩

theorem markQueried_strict (m : Matcher) (id : Identifier) :
    (m.markQueried id).strict = m.strict := by
  unfold Matcher.markQueried
  split <;> rfl

theorem markQueried_main_argc (m : Matcher) (id : Identifier) :
    (m.markQueried id).main_argc = m.main_argc := by
  unfold Matcher.markQueried
  split <;> rfl

theorem get_and_mark_no_queried (m : Matcher) (id : Identifier)
    (hq : m.queried = []) (hpos : id.pos = none)
    (hfind : (findNamed id m.named).isSome = true) :
    ∃ r : Str × ArgType,
      m.get_and_mark_as_queried id = .ok (r, m.markQueried id) ∧ r.2 ≠ ArgType.none_t := by
  unfold Matcher.get_and_mark_as_queried
  rw [if_neg (by simp [hpos])]
  rw [if_neg (by simp [hq])]
  rw [markQueried_named]
  cases hv : findNamed id m.named with
  | none =>
    rw [hv] at hfind
    simp at hfind
  | some ov =>
    cases ov with
    | none => exact ⟨([], ArgType.bool_t), rfl, by simp⟩
    | some v => exact ⟨(v, ArgType.string_t), rfl, by simp⟩

/-- C9: when the named table contains a help-flag entry (short `h` or
long `help`), the constructor's help query sets the help flag, and the
end-of-run flush (strict, no declarations left) takes the help path:
it exits with status 0, leaves the deferred-error slot untouched (so
no validation or deferred report happens), and status 0 arises from no
other flush outcome. -/
theorem c9_help_flag_flush (m m1 : Matcher) (flag : Bool) (dec : Bool)
    (hq : m.queried = [])
    (hmem : ∃ e ∈ m.named, helpId.containsName e.1 = true)
    (hcf : m.computeHelpFlag = .ok (m1, flag))
    (hstrict : m.strict = true)
    (hargc : m.main_argc - (if dec then 1 else 0) ≤ 0) :
    flag = true
    ∧ m1.help_flag = true
    ∧ (m1.check dec).2 = CheckOutcome.helpExit
    ∧ exitCodeOf (m1.check dec).2 = some 0
    ∧ (m1.check dec).1.deferred = m1.deferred
    ∧ (∀ o : CheckOutcome, exitCodeOf o = some 0 → o = CheckOutcome.helpExit) := by
  have hfind := findNamed_isSome helpId m.named hmem
  obtain ⟨r, hgm, hrne⟩ := get_and_mark_no_queried m helpId hq rfl hfind
  unfold Matcher.computeHelpFlag at hcf
  rw [hgm] at hcf
  simp only [Except.ok.injEq, Prod.mk.injEq] at hcf
  obtain ⟨hm1, hflag⟩ := hcf
  have hflag' : flag = true := by
    rw [← hflag]
    simp [hrne]
  subst hm1
  refine ⟨hflag', by simp [hrne], ?_⟩
  unfold Matcher.check checkFlush
  rw [if_neg (by
    simp only [not_or, not_lt]
    refine ⟨by simp [markQueried_strict, hstrict], ?_⟩
    simp only [markQueried_main_argc]
    exact hargc)]
  rw [if_pos (by simp [hrne])]
  refine ⟨rfl, rfl, rfl, ?_⟩
  intro o ho
  cases o with
  | cont => simp [exitCodeOf] at ho
  | helpExit => rfl
  | failExit msg => simp [exitCodeOf] at ho

/-- C9 witness: a run whose named table holds the entry `h` sets the
help flag and flushes to the help exit. -/
theorem c9_witness :
    Matcher.computeHelpFlag ⟨[], [(['h'], none)], [], ⟨none⟩, 1, false, true, false⟩
      = .ok (⟨[], [(['h'], none)], [helpId], ⟨none⟩, 1, false, true, true⟩, true)
    ∧ ((⟨[], [(['h'], none)], [helpId], ⟨none⟩, 1, false, true, true⟩ : Matcher).check true).2
      = CheckOutcome.helpExit :=
  ⟨by decide,
   (c9_help_flag_flush ⟨[], [(['h'], none)], [], ⟨none⟩, 1, false, true, false⟩
     ⟨[], [(['h'], none)], [helpId], ⟨none⟩, 1, false, true, true⟩ true true
     rfl ⟨(['h'], none), by simp, by decide⟩ (by decide) rfl (by decide)).2.2.1⟩

end Fire
